import Mathlib

/-!
Verification of the `str-array` crate: a fixed-capacity stack string type
`Str<N>` (an `[u8; N]` carrying a valid-UTF-8 invariant) together with the
incremental collector `TryStr<N>` that builds a `Str<N>` from a character
iterator.

Embedding conventions:
- bytes are `Nat` (values < 256 in every reachable state);
- a Rust `[u8; N]` is a `List Nat` together with a proof its length is `N`;
- a Rust `&str` is the list of its UTF-8 bytes (valid UTF-8 is an explicit
  hypothesis where the Rust type guarantees it);
- a Rust `char` is a `Nat` codepoint together with the Unicode-scalar-value
  hypothesis `IsScalar`;
- `Result<T, E>` is `Except E T`; a possible panic (index out of bounds,
  failed debug assertion) is modelled by an outer `Option`, `none` being the
  panic;
- `cfg!(debug_assertions)` is an explicit `debug : Bool` parameter;
- bitwise operations of the Rust source are rendered arithmetically: on the
  operand ranges involved, `x >> k` is `x / 2 ^ k`, `x & (2 ^ k - 1)` is
  `x % 2 ^ k`, and `x | tag` is `x + tag` because the tag bits are disjoint
  from the masked payload bits.
-/

/-- `core::str::Utf8Error`: position data of the first invalid sequence found
by UTF-8 validation. `valid_up_to` is the length of the valid prefix,
`error_len` the length of the offending sequence (`none` when input ended in
an incomplete sequence). -/
structure Utf8Error where
  valid_up_to : Nat
  error_len : Option Nat
deriving DecidableEq, Repr

/-- The crate's `InvalidLength` error: expected (`N`) and actual byte
lengths. -/
structure InvalidLength where
  expected : Nat
  actual : Nat
deriving DecidableEq, Repr

/-- Root-level alias for the `InvalidLength` error struct, needed inside the
`TryStr` namespace where the bare name resolves to the enum variant
`TryStr::InvalidLength` instead (Rust separates the two by paths). -/
abbrev InvalidLengthError : Type := InvalidLength

/-- `usize::MAX` on a 64-bit target, used by `TryStr::into_result` as the
sentinel "unknown / possibly unbounded" actual length. -/
def USIZE_MAX : Nat := 2 ^ 64 - 1

/-- `core::str::validations::utf8_char_width`: expected encoded width implied
by a leading byte (0 for bytes that can never start a character). Rendered
from the 256-entry `UTF8_CHAR_WIDTH` table as range tests. -/
def utf8CharWidth (b : Nat) : Nat :=
  if b ≤ 0x7F then 1
  else if b < 0xC2 then 0
  else if b ≤ 0xDF then 2
  else if b ≤ 0xEF then 3
  else if b ≤ 0xF4 then 4
  else 0

/-- A UTF-8 continuation byte: `0x80 ..= 0xBF` (in the Rust validator this is
the test `b as i8 < -64`). -/
def IsCont (b : Nat) : Prop := 0x80 ≤ b ∧ b ≤ 0xBF

instance (b : Nat) : Decidable (IsCont b) := by unfold IsCont; infer_instance

/-- The second-byte constraint of a 3-byte sequence, the `match` of
`core::str::validations::run_utf8_validation` on `(first, next!())` for
width 3: `(0xE0, 0xA0..=0xBF) | (0xE1..=0xEC, 0x80..=0xBF) |
(0xED, 0x80..=0x9F) | (0xEE..=0xEF, 0x80..=0xBF)`. -/
def Valid3Second (first b2 : Nat) : Prop :=
  (first = 0xE0 ∧ 0xA0 ≤ b2 ∧ b2 ≤ 0xBF) ∨
  (0xE1 ≤ first ∧ first ≤ 0xEC ∧ 0x80 ≤ b2 ∧ b2 ≤ 0xBF) ∨
  (first = 0xED ∧ 0x80 ≤ b2 ∧ b2 ≤ 0x9F) ∨
  (0xEE ≤ first ∧ first ≤ 0xEF ∧ 0x80 ≤ b2 ∧ b2 ≤ 0xBF)

instance (first b2 : Nat) : Decidable (Valid3Second first b2) := by
  unfold Valid3Second; infer_instance

/-- The second-byte constraint of a 4-byte sequence:
`(0xF0, 0x90..=0xBF) | (0xF1..=0xF3, 0x80..=0xBF) | (0xF4, 0x80..=0x8F)`. -/
def Valid4Second (first b2 : Nat) : Prop :=
  (first = 0xF0 ∧ 0x90 ≤ b2 ∧ b2 ≤ 0xBF) ∨
  (0xF1 ≤ first ∧ first ≤ 0xF3 ∧ 0x80 ≤ b2 ∧ b2 ≤ 0xBF) ∨
  (first = 0xF4 ∧ 0x80 ≤ b2 ∧ b2 ≤ 0x8F)

instance (first b2 : Nat) : Decidable (Valid4Second first b2) := by
  unfold Valid4Second; infer_instance

/-- The loop of `core::str::validations::run_utf8_validation` (the validator
behind `str::from_utf8`, which `run_utf8_validation` in `lib.rs` wraps).
`off` is the byte offset of the character being examined, i.e. the
`old_offset` recorded for the error's `valid_up_to`. An exhausted input while
inside a sequence reports `error_len = none` (the `next!()` macro's
`err!(None)`); a bad byte at position `k` of the sequence reports
`error_len = some k`. -/
def utf8ValidateLoop : List Nat → Nat → Except Utf8Error Unit
  | [], _ => .ok ()
  | first :: rest, off =>
    if first < 0x80 then
      utf8ValidateLoop rest (off + 1)
    else if utf8CharWidth first = 2 then
      match rest with
      | [] => .error ⟨off, none⟩
      | b2 :: rest2 =>
        if IsCont b2 then utf8ValidateLoop rest2 (off + 2)
        else .error ⟨off, some 1⟩
    else if utf8CharWidth first = 3 then
      match rest with
      | [] => .error ⟨off, none⟩
      | b2 :: rest2 =>
        if Valid3Second first b2 then
          match rest2 with
          | [] => .error ⟨off, none⟩
          | b3 :: rest3 =>
            if IsCont b3 then utf8ValidateLoop rest3 (off + 3)
            else .error ⟨off, some 2⟩
        else .error ⟨off, some 1⟩
    else if utf8CharWidth first = 4 then
      match rest with
      | [] => .error ⟨off, none⟩
      | b2 :: rest2 =>
        if Valid4Second first b2 then
          match rest2 with
          | [] => .error ⟨off, none⟩
          | b3 :: rest3 =>
            if IsCont b3 then
              match rest3 with
              | [] => .error ⟨off, none⟩
              | b4 :: rest4 =>
                if IsCont b4 then utf8ValidateLoop rest4 (off + 4)
                else .error ⟨off, some 3⟩
            else .error ⟨off, some 2⟩
        else .error ⟨off, some 1⟩
    else .error ⟨off, some 1⟩

/-- `run_utf8_validation` of `lib.rs`: full UTF-8 validation of a byte span
via `str::from_utf8`, returning the underlying `Utf8Error` unchanged on
failure. -/
def run_utf8_validation (v : List Nat) : Except Utf8Error Unit :=
  utf8ValidateLoop v 0

/-- `Str<const N: usize> { v: [u8; N] }`: the fixed-length string buffer.
The length of the array is part of the Rust type, hence the `hlen` field;
the valid-UTF-8 invariant is not part of the type but established about
every safe constructor (claim C1). -/
structure Str (N : Nat) where
  v : List Nat
  hlen : v.length = N

instance (N : Nat) : DecidableEq (Str N) := fun a b =>
  if h : a.v = b.v then
    isTrue (by cases a; cases b; simp_all)
  else
    isFalse (by intro hab; cases hab; exact h rfl)

/-- `Str::as_str`: zero-copy view of the stored bytes as a string (strings
are byte lists in this embedding). -/
def Str.as_str {N : Nat} (s : Str N) : List Nat := s.v

/-- `Str::as_bytes`. -/
def Str.as_bytes {N : Nat} (s : Str N) : List Nat := s.v

/-- `Str::into_bytes`. -/
def Str.into_bytes {N : Nat} (s : Str N) : List Nat := s.v

/-- `Str::from_utf8`: validate the whole array, return the validator's error
on failure, otherwise wrap the bytes (via `from_utf8_unchecked_internal`,
which just stores them). -/
def Str.from_utf8 (N : Nat) (v : List Nat) (h : v.length = N) :
    Except Utf8Error (Str N) :=
  match run_utf8_validation v with
  | .error e => .error e
  | .ok _ => .ok ⟨v, h⟩

/-- `Str::from_utf8_unchecked`: with `debug_assertions` enabled it re-runs
`from_utf8` and panics (`none`) on invalid bytes; in optimized builds it
stores the bytes directly. -/
def Str.from_utf8_unchecked (N : Nat) (debug : Bool) (v : List Nat)
    (h : v.length = N) : Option (Str N) :=
  if debug then
    match Str.from_utf8 N v h with
    | .ok s => some s
    | .error _ => none
  else
    some ⟨v, h⟩

/-- `Str::try_new`: fail with `InvalidLength` unless the slice has exactly
`N` bytes, otherwise copy them element-wise into a fresh `[0u8; N]` array
and hand the copy to `from_utf8_unchecked`. -/
def Str.try_new (N : Nat) (debug : Bool) (s : List Nat) :
    Option (Except InvalidLength (Str N)) :=
  if s.length ≠ N then
    some (.error ⟨N, s.length⟩)
  else
    -- the `while` loop writing `array[i] = bytes[i]` for `i < N`
    let array : List Nat := List.ofFn fun i : Fin N => s.getD i 0
    match Str.from_utf8_unchecked N debug array (List.length_ofFn _) with
    | some v => some (.ok v)
    | none => none

/-- `char::len_utf8` (as used through `ch.len_utf8()`). -/
def len_utf8 (c : Nat) : Nat :=
  if c < 0x80 then 1
  else if c < 0x800 then 2
  else if c < 0x10000 then 3
  else 4

/-- `char::encode_utf8` (the branch taken for the computed length). Bit
operations are rendered arithmetically, see the header comment. -/
def encode_utf8 (c : Nat) : List Nat :=
  if c < 0x80 then [c]
  else if c < 0x800 then
    [0xC0 + c / 64 % 32, 0x80 + c % 64]
  else if c < 0x10000 then
    [0xE0 + c / 4096 % 16, 0x80 + c / 64 % 64, 0x80 + c % 64]
  else
    [0xF0 + c / 262144 % 8, 0x80 + c / 4096 % 64, 0x80 + c / 64 % 64,
      0x80 + c % 64]

/-- A Unicode scalar value, i.e. a value of Rust's `char` type: a codepoint
below `0x110000` that is not a surrogate. -/
def IsScalar (c : Nat) : Prop :=
  c < 0xD800 ∨ (0xE000 ≤ c ∧ c ≤ 0x10FFFF)

instance (c : Nat) : Decidable (IsScalar c) := by unfold IsScalar; infer_instance

/-- `TryStr<const N: usize>`: outcome of collecting a char iterator into a
`Str<N>`. A single failure variant `InvalidLength` covers both too-long and
too-short inputs. -/
inductive TryStr (N : Nat) where
  | Ok : Str N → TryStr N
  | InvalidLength : TryStr N
deriving DecidableEq

/-- `TryStr::is_ok`. -/
def TryStr.is_ok {N : Nat} : TryStr N → Bool
  | .Ok _ => true
  | .InvalidLength => false

/-- `TryStr::is_err`. -/
def TryStr.is_err {N : Nat} : TryStr N → Bool
  | .Ok _ => false
  | .InvalidLength => true

/-- `TryStr::into_result`: `Ok t ↦ Ok t`, `InvalidLength ↦ Err` with
`expected = N` and `actual = usize::MAX` (the sentinel for "unknown, the
iterator may even be infinite"). -/
def TryStr.into_result {N : Nat} : TryStr N → Except InvalidLengthError (Str N)
  | .Ok t => .ok t
  | .InvalidLength => .error ⟨N, USIZE_MAX⟩

/-- `out[i .. i + bs.length].copy_from_slice(bs)` on a list: callers must
ensure `i + bs.length ≤ out.length` (the Rust slice operation panics
otherwise, which callers model separately). -/
def writeBytes (out : List Nat) (i : Nat) (bs : List Nat) : List Nat :=
  out.take i ++ bs ++ out.drop (i + bs.length)

/-- The `for` loop of `impl FromIterator<char> for TryStr<N>` plus the code
after it. State: remaining chars, the `out` array (always exactly `N`
bytes), the cursor `i`. Per char: the `i == N` too-long check first, then
`len = ch.len_utf8()`; a 1-byte char is stored by `out[i] = ch as u8`, a
multi-byte char by `out[i..i + len].copy_from_slice(..)` whose slice bounds
check panics (`none`) when `i + len > N`. On exhaustion: `InvalidLength`
when `i ≠ N`, otherwise `Str::from_utf8_unchecked(out)`. -/
def from_iter_loop (N : Nat) (debug : Bool) :
    List Nat → (out : List Nat) → out.length = N → Nat → Option (TryStr N)
  | [], out, h, i =>
    if i ≠ N then some .InvalidLength
    else
      match Str.from_utf8_unchecked N debug out h with
      | some s => some (.Ok s)
      | none => none
  | c :: rest, out, h, i =>
    if i = N then some .InvalidLength
    else
      let len := len_utf8 c
      if len = 1 then
        from_iter_loop N debug rest (out.set i (c % 256)) (by simpa using h)
          (i + 1)
      else if hb : i + len ≤ out.length then
        from_iter_loop N debug rest (writeBytes out i (encode_utf8 c))
          (by
            have he : (encode_utf8 c).length = len_utf8 c := by
              simp only [encode_utf8, len_utf8]; split_ifs <;> simp
            unfold writeBytes
            simp only [List.length_append, List.length_take, List.length_drop]
            omega)
          (i + len)
      else none

/-- `TryStr::from_iter` over a finite character sequence: run the loop from
`out = [0u8; N]`, `i = 0`. -/
def TryStr.from_iter (N : Nat) (debug : Bool) (cs : List Nat) :
    Option (TryStr N) :=
  from_iter_loop N debug cs (List.replicate N 0) (by simp) 0

/-- Lexicographic byte comparison; `<str as Ord>::cmp` compares strings by
their UTF-8 bytes exactly this way. -/
def lexCompare : List Nat → List Nat → Ordering
  | [], [] => .eq
  | [], _ :: _ => .lt
  | _ :: _, [] => .gt
  | a :: as_, b :: bs =>
    if a < b then .lt
    else if b < a then .gt
    else lexCompare as_ bs

/-- `impl PartialEq<Str<T>> for Str<N>`: `T == N &&
<str as PartialEq>::eq(self.as_ref(), other.as_ref())` (string equality is
equality of the UTF-8 bytes). -/
def Str.eq {N T : Nat} (a : Str N) (b : Str T) : Bool :=
  T == N && a.as_str == b.as_str

/-- `impl PartialOrd<Str<T>> for Str<N>`: delegate to
`<str as PartialOrd>::partial_cmp`, which is total on strings and returns
`some` of the lexicographic byte comparison. -/
def Str.partial_cmp {N T : Nat} (a : Str N) (b : Str T) : Option Ordering :=
  some (lexCompare a.as_str b.as_str)

/-- `impl TryFrom<&str> for Str<N>` delegates to `try_new`. -/
def Str.tryFrom_str (N : Nat) (debug : Bool) (s : List Nat) :
    Option (Except InvalidLength (Str N)) :=
  Str.try_new N debug s

/-- `impl TryFrom<String> for Str<N>` (likewise `&String`, `&mut String`,
`Box<str>`, `Cow<str>`) delegates to `try_new` on the same bytes. -/
def Str.tryFrom_string (N : Nat) (debug : Bool) (s : List Nat) :
    Option (Except InvalidLength (Str N)) :=
  Str.try_new N debug s

/-- Total UTF-8 encoded byte length of a character sequence: the value the
collection cursor holds at sequence exhaustion. -/
def utf8Len : List Nat → Nat
  | [] => 0
  | c :: cs => len_utf8 c + utf8Len cs

/-- In-order concatenation of the characters' UTF-8 encodings: the buffer a
successful collection must contain. -/
def utf8Encode : List Nat → List Nat
  | [] => []
  | c :: cs => encode_utf8 c ++ utf8Encode cs

theorem Str.eq_of_veq {N : Nat} {a b : Str N} (h : a.v = b.v) : a = b := by
  cases a; cases b; simp_all

theorem length_encode_utf8 (c : Nat) : (encode_utf8 c).length = len_utf8 c := by
  simp only [encode_utf8, len_utf8]; split_ifs <;> simp

theorem len_utf8_pos (c : Nat) : 1 ≤ len_utf8 c := by
  simp only [len_utf8]; split_ifs <;> omega

theorem utf8Encode_length (cs : List Nat) :
    (utf8Encode cs).length = utf8Len cs := by
  induction cs with
  | nil => rfl
  | cons c cs ih => simp [utf8Encode, utf8Len, length_encode_utf8, ih]

theorem utf8Len_append (a b : List Nat) :
    utf8Len (a ++ b) = utf8Len a + utf8Len b := by
  induction a with
  | nil => simp [utf8Len]
  | cons c a ih => simp [utf8Len, ih]; omega

theorem utf8Encode_append (a b : List Nat) :
    utf8Encode (a ++ b) = utf8Encode a ++ utf8Encode b := by
  induction a with
  | nil => simp [utf8Encode]
  | cons c a ih => simp [utf8Encode, ih]

/-- Stepping the validator over one encoded scalar: the encoding of a
Unicode scalar value is accepted as one character of its encoded width. -/
theorem utf8ValidateLoop_encode (c : Nat) (hc : IsScalar c) (rest : List Nat)
    (off : Nat) :
    utf8ValidateLoop (encode_utf8 c ++ rest)
      off = utf8ValidateLoop rest (off + len_utf8 c) := by
  have hsc : c < 0xD800 ∨ (0xE000 ≤ c ∧ c ≤ 0x10FFFF) := hc
  rcases Nat.lt_or_ge c 0x80 with h1 | h1
  · have he : encode_utf8 c = [c] := by simp [encode_utf8, h1]
    have hl : len_utf8 c = 1 := by simp [len_utf8, h1]
    rw [he, hl, utf8ValidateLoop.eq_def]
    simp [h1]
  · have h1' : ¬ c < 0x80 := by omega
    rcases Nat.lt_or_ge c 0x800 with h2 | h2
    · have he : encode_utf8 c = [0xC0 + c / 64 % 32, 0x80 + c % 64] := by
        simp [encode_utf8, h1', h2]
      have hl : len_utf8 c = 2 := by simp [len_utf8, h1', h2]
      have hw : utf8CharWidth (0xC0 + c / 64 % 32) = 2 := by
        simp only [utf8CharWidth]; split_ifs <;> omega
      have hA : ¬ (0xC0 + c / 64 % 32 < 0x80) := by omega
      have hcont : IsCont (0x80 + c % 64) := ⟨by omega, by omega⟩
      rw [he, hl, utf8ValidateLoop.eq_def]
      simp [hA, hw, hcont]
    · have h2' : ¬ c < 0x800 := by omega
      rcases Nat.lt_or_ge c 0x10000 with h3 | h3
      · have he : encode_utf8 c =
            [0xE0 + c / 4096 % 16, 0x80 + c / 64 % 64, 0x80 + c % 64] := by
          simp [encode_utf8, h1', h2', h3]
        have hl : len_utf8 c = 3 := by simp [len_utf8, h1', h2', h3]
        have hw : utf8CharWidth (0xE0 + c / 4096 % 16) = 3 := by
          simp only [utf8CharWidth]; split_ifs <;> omega
        have hA : ¬ (0xE0 + c / 4096 % 16 < 0x80) := by omega
        have hv3 : Valid3Second (0xE0 + c / 4096 % 16) (0x80 + c / 64 % 64) := by
          unfold Valid3Second; omega
        have hcont : IsCont (0x80 + c % 64) := ⟨by omega, by omega⟩
        rw [he, hl, utf8ValidateLoop.eq_def]
        simp [hA, hw, hv3, hcont]
      · have h3' : ¬ c < 0x10000 := by omega
        have he : encode_utf8 c =
            [0xF0 + c / 262144 % 8, 0x80 + c / 4096 % 64, 0x80 + c / 64 % 64,
              0x80 + c % 64] := by
          simp [encode_utf8, h1', h2', h3']
        have hl : len_utf8 c = 4 := by simp [len_utf8, h1', h2', h3']
        have hw : utf8CharWidth (0xF0 + c / 262144 % 8) = 4 := by
          simp only [utf8CharWidth]; split_ifs <;> omega
        have hA : ¬ (0xF0 + c / 262144 % 8 < 0x80) := by omega
        have hv4 : Valid4Second (0xF0 + c / 262144 % 8) (0x80 + c / 4096 % 64) := by
          unfold Valid4Second; omega
        have hcont3 : IsCont (0x80 + c / 64 % 64) := ⟨by omega, by omega⟩
        have hcont4 : IsCont (0x80 + c % 64) := ⟨by omega, by omega⟩
        rw [he, hl, utf8ValidateLoop.eq_def]
        simp [hA, hw, hv4, hcont3, hcont4]

/-- The concatenation of the UTF-8 encodings of scalar values validates,
from any offset. -/
theorem utf8ValidateLoop_utf8Encode (cs : List Nat)
    (h : ∀ c ∈ cs, IsScalar c) (off : Nat) :
    utf8ValidateLoop (utf8Encode cs) off = .ok () := by
  induction cs generalizing off with
  | nil => rfl
  | cons c cs ih =>
    rw [show utf8Encode (c :: cs) = encode_utf8 c ++ utf8Encode cs from rfl]
    rw [utf8ValidateLoop_encode c (h c (by simp)) _ off]
    exact ih (fun c' hc' => h c' (by simp [hc'])) _

/-- Full validation of the concatenated encodings of scalar values. -/
theorem run_utf8_validation_utf8Encode (cs : List Nat)
    (h : ∀ c ∈ cs, IsScalar c) :
    run_utf8_validation (utf8Encode cs) = .ok () :=
  utf8ValidateLoop_utf8Encode cs h 0

theorem set_eq_writeBytes (out : List Nat) (i : Nat) (a : Nat)
    (h : i < out.length) : out.set i a = writeBytes out i [a] := by
  rw [List.set_eq_take_cons_drop a h]
  unfold writeBytes
  simp

/-- Writing `bs` at the boundary between a prefix `E` and a suffix `R`
replaces the first `bs.length` bytes of `R`. -/
theorem writeBytes_append (E R bs : List Nat) :
    writeBytes (E ++ R) E.length bs = E ++ (bs ++ R.drop bs.length) := by
  unfold writeBytes
  rw [List.take_left, List.drop_append, List.append_assoc]

/-- Success run of the collection loop: if the cursor `i` equals the encoded
length of the already-consumed characters `done`, the buffer holds their
encodings followed by zero padding, and the remaining characters' encoded
length lands exactly on `N`, the loop returns `Ok` of the fully encoded
buffer (in both build modes: the final debug re-validation passes). -/
theorem from_iter_loop_ok (N : Nat) (debug : Bool) (cs : List Nat) :
    ∀ (done out : List Nat) (h : out.length = N) (i : Nat)
      (hsc : ∀ c ∈ done ++ cs, IsScalar c)
      (hi : i = utf8Len done)
      (hout : out = utf8Encode done ++ List.replicate (N - i) 0)
      (hsum : i + utf8Len cs = N),
    from_iter_loop N debug cs out h i
      = some (.Ok ⟨utf8Encode (done ++ cs), by
          rw [utf8Encode_length, utf8Len_append]; omega⟩) := by
  induction cs with
  | nil =>
    intro done out h i hsc hi hout hsum
    have hiN : i = N := by simpa [utf8Len] using hsum
    have hd : out = utf8Encode done := by rw [hout, hiN]; simp
    have hval : run_utf8_validation out = .ok () := by
      rw [hd]
      exact run_utf8_validation_utf8Encode done (fun c hc => hsc c (by simp [hc]))
    rw [from_iter_loop.eq_def]
    simp only []
    rw [if_neg (show ¬ i ≠ N by omega)]
    cases debug with
    | false =>
      simp only [Str.from_utf8_unchecked, Bool.false_eq_true, if_false]
      exact congrArg (fun s => some (TryStr.Ok s))
        (Str.eq_of_veq (by simpa using hd))
    | true =>
      simp only [Str.from_utf8_unchecked, Str.from_utf8, hval, if_true]
      exact congrArg (fun s => some (TryStr.Ok s))
        (Str.eq_of_veq (by simpa using hd))
  | cons c cs ih =>
    intro done out h i hsc hi hout hsum
    have hscc : IsScalar c := hsc c (by simp)
    have henc := length_encode_utf8 c
    have hpos := len_utf8_pos c
    rw [show utf8Len (c :: cs) = len_utf8 c + utf8Len cs from rfl] at hsum
    have hiN : ¬ i = N := by omega
    have hElen : (utf8Encode done).length = i := by rw [utf8Encode_length, hi]
    have hsc' : ∀ x ∈ (done ++ [c]) ++ cs, IsScalar x := by
      intro x hx
      exact hsc x (by simpa [List.append_assoc] using hx)
    have hi' : i + len_utf8 c = utf8Len (done ++ [c]) := by
      rw [utf8Len_append]
      simp only [utf8Len]
      omega
    have hsum' : (i + len_utf8 c) + utf8Len cs = N := by omega
    have hfix : (done ++ [c]) ++ cs = done ++ c :: cs := by simp
    rw [from_iter_loop.eq_def]
    simp only []
    rw [if_neg hiN]
    by_cases hl1 : len_utf8 c = 1
    · rw [if_pos hl1]
      have hc128 : c < 0x80 := by
        simp only [len_utf8] at hl1; split_ifs at hl1 <;> omega
      have hmod : c % 256 = c := Nat.mod_eq_of_lt (by omega)
      have hNi : N - i = (N - (i + 1)) + 1 := by omega
      have hset : out.set i (c % 256)
          = utf8Encode (done ++ [c]) ++ List.replicate (N - (i + 1)) 0 := by
        calc out.set i (c % 256)
            = (utf8Encode done
                ++ List.replicate (N - i) 0).set (utf8Encode done).length c := by
              rw [hmod, hout, hElen]
          _ = utf8Encode done ++ (List.replicate (N - i) 0).set 0 c := by
              simp [List.set_append]
          _ = utf8Encode done ++ ([c] ++ List.replicate (N - (i + 1)) 0) := by
              rw [hNi, List.replicate_succ]; simp
          _ = utf8Encode (done ++ [c]) ++ List.replicate (N - (i + 1)) 0 := by
              rw [utf8Encode_append]
              simp [utf8Encode, encode_utf8, hc128]
      have hstep := ih (done ++ [c]) (out.set i (c % 256)) (by simpa using h)
        (i + 1) hsc' (by rw [← hi']; omega) (by rw [hset]) (by omega)
      refine hstep.trans ?_
      exact congrArg (fun s => some (TryStr.Ok s))
        (Str.eq_of_veq (by simp [hfix]))
    · rw [if_neg hl1]
      have hble : i + len_utf8 c ≤ out.length := by rw [h]; omega
      rw [dif_pos hble]
      have hwrite : writeBytes out i (encode_utf8 c)
          = utf8Encode (done ++ [c])
              ++ List.replicate (N - (i + len_utf8 c)) 0 := by
        rw [hout, ← hElen, writeBytes_append, List.drop_replicate,
          utf8Encode_append]
        simp [utf8Encode, henc, Nat.sub_sub]
      have hstep := ih (done ++ [c]) (writeBytes out i (encode_utf8 c))
        (by
          have he : (encode_utf8 c).length = len_utf8 c := length_encode_utf8 c
          unfold writeBytes
          simp only [List.length_append, List.length_take, List.length_drop]
          omega)
        (i + len_utf8 c) hsc' hi' hwrite hsum'
      refine hstep.trans ?_
      exact congrArg (fun s => some (TryStr.Ok s))
        (Str.eq_of_veq (by simp [hfix]))

/-- The element-wise copy loop of `try_new` reproduces the source slice. -/
theorem list_ofFn_getD (N : Nat) (s : List Nat) (h : s.length = N) :
    (List.ofFn fun i : Fin N => s.getD i 0) = s := by
  subst h
  apply List.ext_getElem
  · simp
  · intro i h1 h2
    simp [List.getD_eq_getElem?_getD, List.getElem?_eq_getElem h2]

/-- If the collection loop returns `Ok`, the remaining characters' encoded
length reaches `N` exactly from the current cursor. -/
theorem from_iter_loop_sum_of_ok (N : Nat) (debug : Bool) (cs : List Nat) :
    ∀ (out : List Nat) (h : out.length = N) (i : Nat) (s : Str N),
    from_iter_loop N debug cs out h i = some (.Ok s) → i + utf8Len cs = N := by
  induction cs with
  | nil =>
    intro out h i s heq
    by_cases hiN : i = N
    · simp [utf8Len]; omega
    · rw [from_iter_loop.eq_def] at heq
      simp only [] at heq
      rw [if_pos hiN] at heq
      simp at heq
  | cons c cs ih =>
    intro out h i s heq
    rw [from_iter_loop.eq_def] at heq
    simp only [] at heq
    by_cases hiN : i = N
    · rw [if_pos hiN] at heq; simp at heq
    · rw [if_neg hiN] at heq
      by_cases hl1 : len_utf8 c = 1
      · rw [if_pos hl1] at heq
        have := ih _ _ _ _ heq
        simp only [utf8Len]; omega
      · rw [if_neg hl1] at heq
        by_cases hb : i + len_utf8 c ≤ out.length
        · rw [dif_pos hb] at heq
          have := ih _ _ _ _ heq
          simp only [utf8Len]; omega
        · rw [dif_neg hb] at heq; simp at heq

/-- Successful collection from the initial state when the total encoded
length is exactly `N`. -/
theorem from_iter_ok_of_sum (N : Nat) (debug : Bool) (cs : List Nat)
    (hsc : ∀ c ∈ cs, IsScalar c) (hsum : utf8Len cs = N) :
    TryStr.from_iter N debug cs
      = some (.Ok ⟨utf8Encode cs, by rw [utf8Encode_length]; exact hsum⟩) := by
  unfold TryStr.from_iter
  have hstep := from_iter_loop_ok N debug cs [] (List.replicate N 0) (by simp) 0
    (by simpa using hsc) (by simp [utf8Len]) (by simp [utf8Encode]) (by omega)
  refine hstep.trans ?_
  exact congrArg (fun s => some (TryStr.Ok s)) (Str.eq_of_veq (by simp))

/-- A successful collection implies the total encoded length was exactly
`N`. -/
theorem from_iter_sum_of_ok (N : Nat) (debug : Bool) (cs : List Nat)
    (s : Str N) (heq : TryStr.from_iter N debug cs = some (.Ok s)) :
    utf8Len cs = N := by
  have := from_iter_loop_sum_of_ok N debug cs (List.replicate N 0) (by simp) 0
    s heq
  omega

/-- A successful collection's buffer is the concatenation of the characters'
encodings. -/
theorem from_iter_v_of_ok (N : Nat) (debug : Bool) (cs : List Nat)
    (s : Str N) (hsc : ∀ c ∈ cs, IsScalar c)
    (heq : TryStr.from_iter N debug cs = some (.Ok s)) :
    s.v = utf8Encode cs := by
  have hsum := from_iter_sum_of_ok N debug cs s heq
  have h2 := from_iter_ok_of_sum N debug cs hsc hsum
  rw [heq] at h2
  have h3 := Option.some.inj h2
  have h4 := congrArg (fun r : TryStr N => match r with
    | .Ok t => t.v
    | .InvalidLength => []) h3
  simpa using h4

/-- On valid UTF-8 input, `from_utf8_unchecked` returns the stored bytes in
both build modes (the debug re-validation passes). -/
theorem from_utf8_unchecked_valid (N : Nat) (debug : Bool) (v : List Nat)
    (h : v.length = N) (hval : run_utf8_validation v = .ok ()) :
    Str.from_utf8_unchecked N debug v h = some ⟨v, h⟩ := by
  cases debug <;> simp [Str.from_utf8_unchecked, Str.from_utf8, hval]

/-- `from_utf8_unchecked` only depends on the byte list, not on the length
proof supplied for it. -/
theorem from_utf8_unchecked_congr (N : Nat) (debug : Bool)
    (v v' : List Nat) (hv : v.length = N) (hv' : v'.length = N)
    (he : v = v') :
    Str.from_utf8_unchecked N debug v hv
      = Str.from_utf8_unchecked N debug v' hv' := by
  subst he; rfl

/-- On a valid UTF-8 slice of exactly `N` bytes, `try_new` succeeds with the
bytes copied verbatim, in both build modes. -/
theorem try_new_ok (N : Nat) (debug : Bool) (s : List Nat)
    (hval : run_utf8_validation s = .ok ()) (hlen : s.length = N) :
    Str.try_new N debug s = some (.ok ⟨s, hlen⟩) := by
  unfold Str.try_new
  rw [if_neg (show ¬ s.length ≠ N by omega)]
  simp only []
  rw [from_utf8_unchecked_congr N debug _ s (List.length_ofFn _) hlen
    (list_ofFn_getD N s hlen)]
  rw [from_utf8_unchecked_valid N debug s hlen hval]

/-- On a slice whose length differs from `N`, `try_new` fails with the
expected/actual length pair. -/
theorem try_new_err (N : Nat) (debug : Bool) (s : List Nat)
    (hlen : s.length ≠ N) :
    Str.try_new N debug s = some (.error ⟨N, s.length⟩) := by
  unfold Str.try_new
  rw [if_pos hlen]

theorem lexCompare_eq_iff (a : List Nat) :
    ∀ b : List Nat, lexCompare a b = .eq ↔ a = b := by
  induction a with
  | nil => intro b; cases b <;> simp [lexCompare]
  | cons x xs ih =>
    intro b
    cases b with
    | nil => simp [lexCompare]
    | cons y ys =>
      by_cases h1 : x < y
      · simp only [lexCompare, if_pos h1]
        constructor
        · intro hcon; cases hcon
        · intro hcon
          rw [List.cons.injEq] at hcon
          omega
      · by_cases h2 : y < x
        · simp only [lexCompare, if_neg h1, if_pos h2]
          constructor
          · intro hcon; cases hcon
          · intro hcon
            rw [List.cons.injEq] at hcon
            omega
        · have hxy : x = y := by omega
          simp [lexCompare, h1, h2, hxy, ih ys]

/-- C1: every `Str<N>` produced by a safe public constructor — `from_utf8`
on a byte array, `try_new` (hence the string `TryFrom` impls) on a string
slice, or a char-iterator collection into `TryStr<N>` that returns `Ok` —
holds exactly `N` bytes whose `as_bytes` view passes full UTF-8
validation. -/
theorem safe_constructors_utf8_invariant (N : Nat) (debug : Bool) :
    (∀ (v : List Nat) (h : v.length = N) (s : Str N),
        Str.from_utf8 N v h = .ok s →
        s.as_bytes.length = N ∧ run_utf8_validation s.as_bytes = .ok ()) ∧
    (∀ (str : List Nat) (t : Str N),
        run_utf8_validation str = .ok () →
        Str.try_new N debug str = some (.ok t) →
        t.as_bytes.length = N ∧ run_utf8_validation t.as_bytes = .ok ()) ∧
    (∀ (cs : List Nat) (t : Str N),
        (∀ c ∈ cs, IsScalar c) →
        TryStr.from_iter N debug cs = some (.Ok t) →
        t.as_bytes.length = N ∧ run_utf8_validation t.as_bytes = .ok ()) := by
  refine ⟨?_, ?_, ?_⟩
  · intro v h s heq
    unfold Str.from_utf8 at heq
    cases hv : run_utf8_validation v with
    | error e => rw [hv] at heq; cases heq
    | ok u =>
      rw [hv] at heq
      have hs := Except.ok.inj heq
      subst hs
      exact ⟨h, by simpa [Str.as_bytes] using hv⟩
  · intro str t hval heq
    by_cases hlen : str.length = N
    · rw [try_new_ok N debug str hval hlen] at heq
      have := Option.some.inj heq
      have ht := Except.ok.inj this
      subst ht
      exact ⟨hlen, by simpa [Str.as_bytes] using hval⟩
    · rw [try_new_err N debug str hlen] at heq
      have := Option.some.inj heq
      cases this
  · intro cs t hsc heq
    have hv := from_iter_v_of_ok N debug cs t hsc heq
    refine ⟨t.hlen, ?_⟩
    show run_utf8_validation t.v = .ok ()
    rw [hv]
    exact run_utf8_validation_utf8Encode cs hsc

theorem safe_constructors_utf8_invariant_witness :
    Str.from_utf8 1 [65] rfl = .ok ⟨[65], rfl⟩ ∧
    (⟨[65], rfl⟩ : Str 1).as_bytes.length = 1 ∧
    run_utf8_validation (⟨[65], rfl⟩ : Str 1).as_bytes = .ok () := by
  refine ⟨by rfl, ?_, ?_⟩
  · exact ((safe_constructors_utf8_invariant 1 false).1 [65] rfl ⟨[65], rfl⟩
      (by rfl)).1
  · exact ((safe_constructors_utf8_invariant 1 false).1 [65] rfl ⟨[65], rfl⟩
      (by rfl)).2

/-- C2: collecting a finite character sequence into `TryStr<N>` yields `Ok`
exactly when the characters' total UTF-8 encoded length is `N`, and then the
buffer is the in-order concatenation of the encodings; whenever the result
is a returned variant and the total differs from `N`, it is the
length-mismatch variant; the empty sequence with `N = 0` succeeds with
cursor `0`. -/
theorem from_iter_exact_length (N : Nat) (debug : Bool) (cs : List Nat)
    (hsc : ∀ c ∈ cs, IsScalar c) :
    (utf8Len cs = N →
      ∃ s : Str N, TryStr.from_iter N debug cs = some (.Ok s) ∧
        s.as_str = utf8Encode cs) ∧
    (utf8Len cs ≠ N →
      ∀ r : TryStr N, TryStr.from_iter N debug cs = some r →
        r = .InvalidLength) ∧
    (cs = [] → N = 0 →
      ∃ s : Str N, TryStr.from_iter N debug cs = some (.Ok s) ∧
        s.as_str = []) := by
  refine ⟨?_, ?_, ?_⟩
  · intro hsum
    exact ⟨_, from_iter_ok_of_sum N debug cs hsc hsum, rfl⟩
  · intro hsum r heq
    cases r with
    | Ok s => exact absurd (from_iter_sum_of_ok N debug cs s heq) hsum
    | InvalidLength => rfl
  · intro hcs hN
    subst hcs; subst hN
    exact ⟨_, from_iter_ok_of_sum 0 debug [] (by simp) rfl, rfl⟩

theorem from_iter_exact_length_witness :
    (∃ s : Str 2, TryStr.from_iter 2 false [72, 105] = some (.Ok s) ∧
      s.as_str = utf8Encode [72, 105]) ∧
    (∀ r : TryStr 3, TryStr.from_iter 3 false [72, 105] = some r →
      r = .InvalidLength) := by
  constructor
  · exact (from_iter_exact_length 2 false [72, 105] (by decide)).1 (by decide)
  · exact (from_iter_exact_length 3 false [72, 105] (by decide)).2.1 (by decide)

/-- C3 counterexample: collecting `['a', '€']` (the euro sign encodes to 3
bytes) into `N = 2` reaches cursor 1 with 3 bytes to write; the code only
checks `i == N` before the write, so the slice operation
`out[1..4]` on a 2-byte array panics (`none`) instead of returning the
length-mismatch variant, in both build modes. -/
theorem from_iter_overflow_cex :
    TryStr.from_iter 2 false [97, 8364] = none ∧
    TryStr.from_iter 2 true [97, 8364] = none ∧
    ¬ TryStr.from_iter 2 false [97, 8364] = some .InvalidLength := by
  refine ⟨by rfl, by rfl, ?_⟩
  intro hcon
  rw [show TryStr.from_iter 2 false [97, 8364] = none from rfl] at hcon
  cases hcon

/-- C3 (amended): when a character's encoded length exceeds the remaining
capacity, the collection does not return a truncated buffer, but the failure
mode depends on where the cursor is: if the cursor has already reached `N`
the loop returns the length-mismatch variant before examining the
character, while if `cursor < N` and `cursor + len > N` (so `len ≥ 2`) the
bounds check of the buffer write panics instead of returning the
length-mismatch variant; in no case does a successfully returned buffer
contain a truncated encoding (every `Ok` buffer passes full UTF-8
validation). -/
theorem from_iter_overflow_behavior (N : Nat) (debug : Bool) :
    (∀ (c : Nat) (rest out : List Nat) (h : out.length = N) (i : Nat),
        i = N →
        from_iter_loop N debug (c :: rest) out h i = some .InvalidLength) ∧
    (∀ (c : Nat) (rest out : List Nat) (h : out.length = N) (i : Nat),
        i < N → N < i + len_utf8 c →
        from_iter_loop N debug (c :: rest) out h i = none) ∧
    (∀ (cs : List Nat) (t : Str N),
        (∀ c ∈ cs, IsScalar c) →
        TryStr.from_iter N debug cs = some (.Ok t) →
        run_utf8_validation t.as_bytes = .ok ()) := by
  refine ⟨?_, ?_, ?_⟩
  · intro c rest out h i hiN
    rw [from_iter_loop.eq_def]
    simp only []
    rw [if_pos hiN]
  · intro c rest out h i hlt hgt
    have hl1 : ¬ len_utf8 c = 1 := by omega
    rw [from_iter_loop.eq_def]
    simp only []
    rw [if_neg (by omega)]
    rw [if_neg hl1]
    rw [dif_neg (by omega)]
  · intro cs t hsc heq
    show run_utf8_validation t.v = .ok ()
    rw [from_iter_v_of_ok N debug cs t hsc heq]
    exact run_utf8_validation_utf8Encode cs hsc

theorem from_iter_overflow_behavior_witness :
    from_iter_loop 2 false [8364] [97, 0] (by rfl) 1 = none ∧
    from_iter_loop 2 false [8364] [97, 0] (by rfl) 2
      = some TryStr.InvalidLength := by
  constructor
  · exact (from_iter_overflow_behavior 2 false).2.1 8364 [] [97, 0] rfl 1
      (by decide) (by decide)
  · exact (from_iter_overflow_behavior 2 false).1 8364 [] [97, 0] rfl 2 rfl

/-- C4: `Str::from_utf8(bytes)` succeeds iff the `N`-byte array is valid
UTF-8; on success the stored bytes equal the input; on failure it returns
exactly the `Utf8Error` produced by the underlying validation primitive,
position information included. -/
theorem from_utf8_validation_spec (N : Nat) (v : List Nat)
    (h : v.length = N) :
    (run_utf8_validation v = .ok () → Str.from_utf8 N v h = .ok ⟨v, h⟩) ∧
    (∀ s : Str N, Str.from_utf8 N v h = .ok s →
      run_utf8_validation v = .ok () ∧ s.v = v) ∧
    (∀ e : Utf8Error,
      Str.from_utf8 N v h = .error e ↔ run_utf8_validation v = .error e) := by
  refine ⟨?_, ?_, ?_⟩
  · intro hval
    unfold Str.from_utf8
    rw [hval]
  · intro s heq
    unfold Str.from_utf8 at heq
    cases hv : run_utf8_validation v with
    | error e => rw [hv] at heq; cases heq
    | ok u =>
      rw [hv] at heq
      cases u
      exact ⟨rfl, congrArg Str.v (Except.ok.inj heq).symm⟩
  · intro e
    unfold Str.from_utf8
    cases hv : run_utf8_validation v with
    | error e' => simp
    | ok u => simp only []; constructor <;> intro heq <;> cases heq

theorem from_utf8_validation_spec_witness :
    Str.from_utf8 1 [104] rfl = .ok ⟨[104], rfl⟩ ∧
    (Str.from_utf8 4 [0, 159, 146, 150] rfl
        = .error ⟨1, some 1⟩ ↔
      run_utf8_validation [0, 159, 146, 150] = .error ⟨1, some 1⟩) := by
  constructor
  · exact (from_utf8_validation_spec 1 [104] rfl).1 (by rfl)
  · exact (from_utf8_validation_spec 4 [0, 159, 146, 150] rfl).2.2 ⟨1, some 1⟩

/-- C5: `Str::try_new(s)` (and the string `TryFrom` impls, which delegate to
it) succeeds iff the slice's byte length is exactly `N`; on success the
bytes are copied verbatim; on mismatch it returns `InvalidLength` with
`expected = N` and `actual` the slice's length. Holds in both build modes
(the input, being a `&str`, is valid UTF-8, so the debug re-validation of
the copy passes). -/
theorem try_new_length_spec (N : Nat) (debug : Bool) (s : List Nat)
    (hval : run_utf8_validation s = .ok ()) :
    (∀ hlen : s.length = N,
      Str.try_new N debug s = some (.ok ⟨s, hlen⟩)) ∧
    (s.length ≠ N →
      Str.try_new N debug s = some (.error ⟨N, s.length⟩)) ∧
    Str.tryFrom_str N debug s = Str.try_new N debug s ∧
    Str.tryFrom_string N debug s = Str.try_new N debug s := by
  exact ⟨fun hlen => try_new_ok N debug s hval hlen,
    fun hlen => try_new_err N debug s hlen, rfl, rfl⟩

theorem try_new_length_spec_witness :
    Str.try_new 3 true [102, 111, 111]
      = some (.ok ⟨[102, 111, 111], rfl⟩) ∧
    Str.try_new 3 true [102, 111] = some (.error ⟨3, 2⟩) := by
  constructor
  · exact (try_new_length_spec 3 true [102, 111, 111] (by rfl)).1 rfl
  · exact (try_new_length_spec 3 true [102, 111] (by rfl)).2.1 (by decide)

/-- C6: given already-valid UTF-8 bytes, `from_utf8_unchecked` is
observationally identical to `from_utf8(..).unwrap()` in both build modes;
and in debug builds, on invalid bytes it re-runs the checked validation and
terminates non-recoverably (modelled `none`), never returning an instance
that violates the UTF-8 invariant. -/
theorem from_utf8_unchecked_debug_spec (N : Nat) (debug : Bool)
    (v : List Nat) (h : v.length = N) :
    (run_utf8_validation v = .ok () →
      Str.from_utf8 N v h = .ok ⟨v, h⟩ ∧
      Str.from_utf8_unchecked N debug v h = some ⟨v, h⟩) ∧
    (run_utf8_validation v ≠ .ok () →
      Str.from_utf8_unchecked N true v h = none) := by
  constructor
  · intro hval
    refine ⟨?_, from_utf8_unchecked_valid N debug v h hval⟩
    unfold Str.from_utf8
    rw [hval]
  · intro hval
    cases hv : run_utf8_validation v with
    | ok u => cases u; exact absurd hv hval
    | error e =>
      simp [Str.from_utf8_unchecked, Str.from_utf8, hv]

theorem from_utf8_unchecked_debug_spec_witness :
    (Str.from_utf8 4 [240, 159, 146, 150] rfl
        = .ok ⟨[240, 159, 146, 150], rfl⟩ ∧
      Str.from_utf8_unchecked 4 true [240, 159, 146, 150] rfl
        = some ⟨[240, 159, 146, 150], rfl⟩) ∧
    Str.from_utf8_unchecked 4 true [0, 159, 146, 150] rfl = none := by
  constructor
  · exact (from_utf8_unchecked_debug_spec 4 true [240, 159, 146, 150] rfl).1
      (by rfl)
  · exact (from_utf8_unchecked_debug_spec 4 true [0, 159, 146, 150] rfl).2
      (by intro hcon; rw [show run_utf8_validation [0, 159, 146, 150]
        = .error ⟨1, some 1⟩ from rfl] at hcon; cases hcon)

/-- C7: buffers of different static lengths are never equal regardless of
content; `partial_cmp` is the lexicographic byte-wise comparison of the
string contents, ignoring the length difference; for equal static lengths,
equality holds exactly when the string contents are equal. -/
theorem cross_length_eq_ord (N T : Nat) (a : Str N) (b : Str T) :
    (N ≠ T → Str.eq a b = false) ∧
    Str.partial_cmp a b = some (lexCompare a.as_str b.as_str) ∧
    (N = T → (Str.eq a b = true ↔ a.as_str = b.as_str)) := by
  refine ⟨?_, rfl, ?_⟩
  · intro hNT
    have hTN : (T == N) = false := by simp; omega
    unfold Str.eq
    rw [hTN, Bool.false_and]
  · intro hNT
    subst hNT
    simp [Str.eq]

theorem cross_length_eq_ord_witness :
    Str.eq (⟨[102, 111, 111], rfl⟩ : Str 3)
        (⟨[102, 111, 111, 49, 50], rfl⟩ : Str 5) = false ∧
    (Str.eq (⟨[102, 111, 111], rfl⟩ : Str 3)
        (⟨[102, 111, 111], rfl⟩ : Str 3) = true ↔
      Str.as_str (⟨[102, 111, 111], rfl⟩ : Str 3)
        = Str.as_str (⟨[102, 111, 111], rfl⟩ : Str 3)) := by
  constructor
  · exact (cross_length_eq_ord 3 5 ⟨[102, 111, 111], rfl⟩
      ⟨[102, 111, 111, 49, 50], rfl⟩).1 (by decide)
  · exact (cross_length_eq_ord 3 3 ⟨[102, 111, 111], rfl⟩
      ⟨[102, 111, 111], rfl⟩).2.2 rfl

/-- C8: round-trip — every valid UTF-8 byte array of length `N` is accepted
by `from_utf8` and stored exactly; and rebuilding any (invariant-satisfying)
buffer from its `into_bytes` view yields an equal buffer. -/
theorem from_utf8_roundtrip (N : Nat) :
    (∀ (v : List Nat) (h : v.length = N), run_utf8_validation v = .ok () →
      ∃ s : Str N, Str.from_utf8 N v h = .ok s ∧ s.as_bytes = v ∧
        s.into_bytes = v) ∧
    (∀ s : Str N, run_utf8_validation s.v = .ok () →
      Str.from_utf8 N s.into_bytes s.hlen = .ok s) := by
  constructor
  · intro v h hval
    refine ⟨⟨v, h⟩, ?_, rfl, rfl⟩
    unfold Str.from_utf8
    rw [hval]
  · intro s hval
    show Str.from_utf8 N s.v s.hlen = .ok s
    unfold Str.from_utf8
    rw [hval]

theorem from_utf8_roundtrip_witness :
    (∃ s : Str 1, Str.from_utf8 1 [104] rfl = .ok s ∧ s.as_bytes = [104] ∧
      s.into_bytes = [104]) ∧
    Str.from_utf8 1 (Str.into_bytes (⟨[104], rfl⟩ : Str 1))
        (⟨[104], rfl⟩ : Str 1).hlen = .ok ⟨[104], rfl⟩ := by
  constructor
  · exact (from_utf8_roundtrip 1).1 [104] rfl (by rfl)
  · exact (from_utf8_roundtrip 1).2 ⟨[104], rfl⟩ (by rfl)

/-- C9: collection failure is the single variant `InvalidLength`, which does
not distinguish too-long from too-short; `into_result` maps `Ok t` to
`Ok t` and the failure variant to `Err(InvalidLength)` with
`expected = N` and `actual = usize::MAX` (a sentinel, never a count obtained
by walking the sequence). -/
theorem into_result_spec (N : Nat) :
    (∀ t : Str N, TryStr.into_result (.Ok t) = .ok t) ∧
    (TryStr.into_result (TryStr.InvalidLength : TryStr N)
        = .error ⟨N, USIZE_MAX⟩) ∧
    (∀ r : TryStr N, (∃ t, r = .Ok t) ∨ r = .InvalidLength) ∧
    (∀ (r : TryStr N) (e : InvalidLength),
      TryStr.into_result r = .error e →
      e.expected = N ∧ e.actual = USIZE_MAX) := by
  refine ⟨fun t => rfl, rfl, ?_, ?_⟩
  · intro r
    cases r with
    | Ok t => exact Or.inl ⟨t, rfl⟩
    | InvalidLength => exact Or.inr rfl
  · intro r e heq
    cases r with
    | Ok t => cases heq
    | InvalidLength =>
      have := Except.error.inj heq
      rw [← this]
      exact ⟨rfl, rfl⟩

theorem into_result_spec_witness :
    InvalidLength.expected
        (⟨3, USIZE_MAX⟩ : InvalidLength) = 3 ∧
    InvalidLength.actual
        (⟨3, USIZE_MAX⟩ : InvalidLength) = USIZE_MAX := by
  exact (into_result_spec 3).2.2.2 TryStr.InvalidLength ⟨3, USIZE_MAX⟩ rfl

/-- C10: for different static lengths `partial_cmp` never returns
`some .eq` (the contents have different byte lengths, hence differ), so
cross-length `eq` and `partial_cmp` are mutually consistent, and the
explicit `T == N` conjunct in the cross-length `eq` implementation is
redundant: `eq` coincides with plain content equality. -/
theorem cross_length_consistency (N T : Nat) (a : Str N) (b : Str T) :
    (N ≠ T → ¬ Str.partial_cmp a b = some Ordering.eq) ∧
    (Str.eq a b = true ↔ Str.partial_cmp a b = some Ordering.eq) ∧
    Str.eq a b = (a.as_str == b.as_str) := by
  have hl : a.v.length = N := a.hlen
  have hl2 : b.v.length = T := b.hlen
  refine ⟨?_, ?_, ?_⟩
  · intro hNT hcon
    unfold Str.partial_cmp at hcon
    have h1 := Option.some.inj hcon
    have h2 := (lexCompare_eq_iff _ _).mp h1
    have h3 := congrArg List.length h2
    simp only [Str.as_str] at h3
    omega
  · constructor
    · intro heq
      simp only [Str.eq, Bool.and_eq_true, beq_iff_eq] at heq
      unfold Str.partial_cmp
      exact congrArg some ((lexCompare_eq_iff _ _).mpr heq.2)
    · intro hcon
      have h1 := Option.some.inj hcon
      have h2 := (lexCompare_eq_iff _ _).mp h1
      have hT : T = N := by
        have h3 := congrArg List.length h2
        simp only [Str.as_str] at h3
        omega
      simp only [Str.eq, Bool.and_eq_true, beq_iff_eq]
      exact ⟨hT, h2⟩
  · by_cases hv : a.as_str = b.as_str
    · have hT : T = N := by
        have h3 := congrArg List.length hv
        simp only [Str.as_str] at h3
        omega
      simp [Str.eq, hT, hv]
    · simp [Str.eq, hv]

theorem cross_length_consistency_witness :
    ¬ Str.partial_cmp (⟨[97], rfl⟩ : Str 1) (⟨[97, 98], rfl⟩ : Str 2)
        = some Ordering.eq := by
  exact (cross_length_consistency 1 2 ⟨[97], rfl⟩ ⟨[97, 98], rfl⟩).1
    (by decide)
